import Mathlib

/-!
# Verification of the `windowed_iterator` sliding-window adapter

Shallow embedding of `src/lib.rs`.  The wrapped iterator is modelled as the
list of elements it has yet to produce; `VecDeque<T>` is modelled as a
`List T` (front of the deque = head of the list).  `Windows::next` is
modelled as a function from states to a result/next-state pair, with the
`while` refill loop embedded as the structurally recursive `refill`.
-/

namespace WindowedIterator

/-- The `Windows<I, T>` struct from `src/lib.rs`: the adapted iterator
(remaining elements), the window buffer, and the window size. -/
structure Windows (T : Type) where
  iter : List T
  window : List T
  window_size : Nat
deriving Repr, DecidableEq

/-- `Windows::new`: wrap an iterator with an empty window buffer
(`VecDeque::with_capacity` allocates but stores nothing). -/
def Windows.new (iter : List T) (window_size : Nat) : Windows T :=
  ⟨iter, [], window_size⟩

/-- The `while self.window.len() < self.window_size` refill loop of
`Windows::next`: pull elements from the iterator and push them to the back
of the window until the window has `n` elements (`some`) or the iterator is
exhausted mid-refill (`none`).  Returns (result, remaining iterator,
window buffer after the loop). -/
def refill (n : Nat) : List T → List T → Option (List T) × List T × List T
  | [], w => if w.length < n then (none, [], w) else (some w, [], w)
  | x :: rest, w =>
      if w.length < n then refill n rest (w ++ [x])
      else (some w, x :: rest, w)

/-- `<Windows as Iterator>::next`: return `None` for a zero window size;
otherwise pop the front of a full window, refill from the iterator, and on
success emit a clone of the window. -/
def Windows.next (σ : Windows T) : Option (List T) × Windows T :=
  if σ.window_size = 0 then (none, σ)
  else
    let w := if σ.window.length = σ.window_size then σ.window.tail else σ.window
    let r := refill σ.window_size σ.iter w
    (r.1, ⟨r.2.1, r.2.2, σ.window_size⟩)

/-- The state left behind by one call to `next`. -/
def nextState (σ : Windows T) : Windows T := (σ.next).2

/-- The `WindowedIterator::windows` blanket method: build the adapter. -/
def windows (S : List T) (window_size : Nat) : Windows T :=
  Windows.new S window_size

/-- Drive the adapter with the given amount of fuel, collecting every
emitted window until the first `None`. -/
def collect : Nat → Windows T → List (List T)
  | 0, _ => []
  | fuel + 1, σ =>
      match (σ.next).1 with
      | none => []
      | some W => W :: collect fuel (σ.next).2

/-- All windows produced by iterating `windows S n` to exhaustion.
`S.length + 1` fuel is enough: each successful pull consumes at least one
source element. -/
def allWindows (S : List T) (n : Nat) : List (List T) :=
  collect (S.length + 1) (windows S n)

example : allWindows [2, 3, 5, 7] 10 = [] := by decide

example :
    allWindows [1, 2, 3, 4, 5, 6] 3 =
      [[1, 2, 3], [2, 3, 4], [3, 4, 5], [4, 5, 6]] := by decide

example : allWindows [1, 2, 3] 1 = [[1], [2], [3]] := by decide

example : allWindows ([] : List Nat) 0 = [] := by decide

/-! ## Behaviour of the refill loop -/

/-- When enough elements remain, the refill loop completes the window with
the next `n - w.length` elements of the iterator. -/
theorem refill_success {T : Type} (n : Nat) :
    ∀ (iter w : List T), w.length ≤ n → n ≤ w.length + iter.length →
      refill n iter w =
        (some (w ++ iter.take (n - w.length)), iter.drop (n - w.length),
          w ++ iter.take (n - w.length)) := by
  intro iter
  induction iter with
  | nil =>
      intro w h1 h2
      have hw : w.length = n := by simpa using le_antisymm h1 (by simpa using h2)
      simp [refill, hw]
  | cons x rest ih =>
      intro w h1 h2
      by_cases hlt : w.length < n
      · have h1x : (w ++ [x]).length ≤ n := by simp; omega
        have h2x : n ≤ (w ++ [x]).length + rest.length := by
          simp at h2 ⊢; omega
        have hrec := ih (w ++ [x]) h1x h2x
        have hd : n - w.length = (n - (w ++ [x]).length) + 1 := by simp; omega
        simp only [refill, if_pos hlt, hrec, hd]
        simp [List.take_succ_cons, List.drop_succ_cons, List.append_assoc]
      · have hw : w.length = n := le_antisymm h1 (Nat.le_of_not_lt hlt)
        simp [refill, hlt, hw]

/-- When fewer than `n` elements are available in total, the refill loop
drains the iterator into the window and reports exhaustion. -/
theorem refill_fail {T : Type} (n : Nat) :
    ∀ (iter w : List T), w.length + iter.length < n →
      refill n iter w = (none, [], w ++ iter) := by
  intro iter
  induction iter with
  | nil =>
      intro w h
      have : w.length < n := by simpa using h
      simp [refill, this]
  | cons x rest ih =>
      intro w h
      have hlt : w.length < n := by simp at h; omega
      have hrec := ih (w ++ [x]) (by simp at h ⊢; omega)
      simp [refill, hlt, hrec]

/-- The refill loop never grows the window beyond `n` (given it starts
within the bound). -/
theorem refill_len_le {T : Type} (n : Nat) :
    ∀ (iter w : List T), w.length ≤ n → (refill n iter w).2.2.length ≤ n := by
  intro iter
  induction iter with
  | nil =>
      intro w h
      by_cases hlt : w.length < n <;> simp [refill, hlt, h]
  | cons x rest ih =>
      intro w h
      by_cases hlt : w.length < n
      · simpa [refill, hlt] using ih (w ++ [x]) (by simp; omega)
      · simpa [refill, hlt] using h

/-- A window emitted by the refill loop has length exactly `n`. -/
theorem refill_some_len {T : Type} (n : Nat) :
    ∀ (iter w W : List T), w.length ≤ n → (refill n iter w).1 = some W →
      W.length = n := by
  intro iter
  induction iter with
  | nil =>
      intro w W h hsome
      by_cases hlt : w.length < n
      · simp [refill, hlt] at hsome
      · simp [refill, hlt] at hsome
        subst hsome
        omega
  | cons x rest ih =>
      intro w W h hsome
      by_cases hlt : w.length < n
      · exact ih (w ++ [x]) W (by simp; omega) (by simpa [refill, hlt] using hsome)
      · simp [refill, hlt] at hsome
        subst hsome
        omega

/-- When the refill loop reports exhaustion, the iterator has been fully
consumed and the window is still short of `n` elements. -/
theorem refill_none {T : Type} (n : Nat) :
    ∀ (iter w : List T), (refill n iter w).1 = none →
      (refill n iter w).2.1 = [] ∧ (refill n iter w).2.2.length < n := by
  intro iter
  induction iter with
  | nil =>
      intro w hnone
      by_cases hlt : w.length < n <;> simp [refill, hlt] at hnone ⊢
  | cons x rest ih =>
      intro w hnone
      by_cases hlt : w.length < n
      · have := ih (w ++ [x]) (by simpa [refill, hlt] using hnone)
        simpa [refill, hlt] using this
      · simp [refill, hlt] at hnone

/-! ## Single-step behaviour of `next` -/

/-- Pulling with a zero window size returns `None` and leaves the state
untouched. -/
theorem next_zero {T : Type} (σ : Windows T) (h : σ.window_size = 0) :
    σ.next = (none, σ) := by
  simp [Windows.next, h]

/-- Pulling on a not-yet-full window with enough source elements left
completes the window and emits it. -/
theorem next_partial_succ {T : Type} (it w : List T) (n : Nat)
    (hw : w.length < n) (h : n ≤ w.length + it.length) :
    Windows.next ⟨it, w, n⟩ =
      (some (w ++ it.take (n - w.length)),
        ⟨it.drop (n - w.length), w ++ it.take (n - w.length), n⟩) := by
  have hn : ¬ n = 0 := by omega
  have hne : ¬ w.length = n := by omega
  simp [Windows.next, hn, hne, refill_success n it w (Nat.le_of_lt hw) h]

/-- Pulling on a not-yet-full window with too few source elements left
drains the source and returns `None`. -/
theorem next_partial_fail {T : Type} (it w : List T) (n : Nat)
    (hw : w.length < n) (h : w.length + it.length < n) :
    Windows.next ⟨it, w, n⟩ = (none, ⟨[], w ++ it, n⟩) := by
  have hn : ¬ n = 0 := by omega
  have hne : ¬ w.length = n := by omega
  simp [Windows.next, hn, hne, refill_fail n it w h]

/-- Pulling on a full window with at least one source element left slides
the window forward by one. -/
theorem next_full_cons {T : Type} (x : T) (rest w : List T) (n : Nat)
    (hn : n ≠ 0) (hw : w.length = n) :
    Windows.next ⟨x :: rest, w, n⟩ =
      (some (w.tail ++ [x]), ⟨rest, w.tail ++ [x], n⟩) := by
  have htl : w.tail.length = n - 1 := by simp [hw]
  have h1 : w.tail.length ≤ n := by omega
  have h2 : n ≤ w.tail.length + (x :: rest).length := by simp [htl]; omega
  have hd : n - w.tail.length = 1 := by omega
  have hd2 : n - (n - 1) = 1 := by omega
  simp [Windows.next, hn, hw, refill_success n (x :: rest) w.tail h1 h2, hd, hd2]

/-- Pulling on a full window with an exhausted source returns `None`
(the popped-front window stays behind). -/
theorem next_full_nil {T : Type} (w : List T) (n : Nat)
    (hn : n ≠ 0) (hw : w.length = n) :
    Windows.next ⟨[], w, n⟩ = (none, ⟨[], w.tail, n⟩) := by
  have h : w.tail.length + ([] : List T).length < n := by simp [hw]; omega
  simp [Windows.next, hn, hw, refill_fail n [] w.tail h]

/-- `next` never changes the window size. -/
theorem next_window_size {T : Type} (σ : Windows T) :
    ((σ.next).2).window_size = σ.window_size := by
  by_cases h : σ.window_size = 0 <;> simp [Windows.next, h]

/-! ## Whole-run characterisation -/

/-- The sequence of windows obtained by repeatedly sliding a full window
`w` over the remaining elements `it`. -/
def slideAll (w : List T) : List T → List (List T)
  | [] => []
  | x :: rest => (w.tail ++ [x]) :: slideAll (w.tail ++ [x]) rest

/-- Running the adapter from a full window produces exactly the slide
sequence, given enough fuel. -/
theorem collect_full {T : Type} (n : Nat) (hn : n ≠ 0) :
    ∀ (it : List T) (w : List T) (fuel : Nat), w.length = n →
      it.length ≤ fuel → collect fuel ⟨it, w, n⟩ = slideAll w it := by
  intro it
  induction it with
  | nil =>
      intro w fuel hw _
      cases fuel with
      | zero => simp [collect, slideAll]
      | succ f => simp [collect, next_full_nil w n hn hw, slideAll]
  | cons x rest ih =>
      intro w fuel hw hfuel
      cases fuel with
      | zero => simp at hfuel
      | succ f =>
          have hstep := next_full_cons x rest w n hn hw
          have hw2 : (w.tail ++ [x]).length = n := by simp [hw]; omega
          have hrec := ih (w.tail ++ [x]) f hw2 (by simp at hfuel; omega)
          simp [collect, hstep, slideAll, hrec]

/-- Closed form of the slide sequence: the `i`-th produced window is the
`n`-element slice of `w ++ it` starting at position `i + 1`. -/
theorem slideAll_eq {T : Type} (n : Nat) (hn : n ≠ 0) :
    ∀ (it : List T) (w : List T), w.length = n →
      slideAll w it =
        (List.range it.length).map
          (fun i => ((w ++ it).drop (i + 1)).take n) := by
  intro it
  induction it with
  | nil => intro w _; simp [slideAll]
  | cons x rest ih =>
      intro w hw
      have hwne : w ≠ [] := by
        intro hc
        rw [hc] at hw
        simp at hw
        omega
      have htl : (w ++ x :: rest).tail = w.tail ++ x :: rest := by
        obtain ⟨y, w2, rfl⟩ := List.exists_cons_of_ne_nil hwne
        simp
      have hw2 : (w.tail ++ [x]).length = n := by simp [hw]; omega
      have hrec := ih (w.tail ++ [x]) hw2
      have hhead : ((w ++ x :: rest).drop 1).take n = w.tail ++ [x] := by
        rw [List.drop_one, htl, List.take_append_eq_append_take]
        have h1 : w.tail.length = n - 1 := by simp [hw]
        have h2 : n - (n - 1) = 1 := by omega
        have h3 : w.tail.take n = w.tail := List.take_of_length_le (by omega)
        simp [h1, h2, h3]
      simp only [slideAll, hrec, List.length_cons, List.range_succ_eq_map,
        List.map_cons, List.map_map]
      refine congrArg₂ _ hhead.symm ?_
      refine List.map_congr_left ?_
      intro i _
      have hdd : (w ++ x :: rest).drop (i + 1 + 1) =
          ((w ++ x :: rest).drop 1).drop (i + 1) := by
        rw [List.drop_drop]
        congr 1
        omega
      simp only [Function.comp]
      rw [hdd, List.drop_one, htl]
      simp [List.append_assoc]

/-- The full characterisation of the adapter's output: for a positive
window size, iterating `windows S n` to exhaustion yields the `n`-element
slices of `S` starting at each position `i < S.length + 1 - n`. -/
theorem allWindows_eq {T : Type} (S : List T) (n : Nat) (hn : 0 < n) :
    allWindows S n =
      (List.range (S.length + 1 - n)).map (fun i => (S.drop i).take n) := by
  have hn0 : n ≠ 0 := by omega
  by_cases hle : n ≤ S.length
  · have hstep := next_partial_succ S [] n (by simpa using hn) (by simpa using hle)
    simp only [List.length_nil, Nat.sub_zero, List.nil_append] at hstep
    have hlen : (S.take n).length = n := by simp; omega
    have hdroplen : (S.drop n).length ≤ S.length := by simp
    have hfull := collect_full n hn0 (S.drop n) (S.take n) S.length hlen hdroplen
    have hslide := slideAll_eq n hn0 (S.drop n) (S.take n) hlen
    have hcount : S.length + 1 - n = (S.drop n).length + 1 := by simp; omega
    rw [allWindows, windows, Windows.new]
    simp only [collect, hstep]
    rw [hfull, hslide, hcount, List.range_succ_eq_map, List.map_cons,
      List.map_map]
    refine congrArg₂ _ (by simp) ?_
    refine List.map_congr_left ?_
    intro i _
    simp only [Function.comp]
    rw [List.take_append_drop]
  · have hfail := next_partial_fail S [] n (by simpa using hn)
      (by simp; omega)
    have hrange : S.length + 1 - n = 0 := by omega
    rw [allWindows, windows, Windows.new]
    simp [collect, hfail, hrange]

/-! ## Exhaustion and invariants -/

/-- A state from which `next` can only ever answer `None`: either the
window size is zero, or the source is drained and the window cannot be
filled. -/
def Exhausted (σ : Windows T) : Prop :=
  σ.window_size = 0 ∨ (σ.iter = [] ∧ σ.window.length < σ.window_size)

/-- An exhausted state answers `None` and does not change. -/
theorem exhausted_next {T : Type} (σ : Windows T) (h : Exhausted σ) :
    σ.next = (none, σ) := by
  obtain h0 | ⟨hi, hw⟩ := h
  · exact next_zero σ h0
  · obtain ⟨it, w, n⟩ := σ
    simp only at hi hw
    subst hi
    have hfail := next_partial_fail [] w n hw (by simpa using hw)
    simpa using hfail

/-- Whenever `next` answers `None`, the state it leaves behind is
exhausted. -/
theorem next_none_exhausted {T : Type} (σ : Windows T)
    (h : (σ.next).1 = none) : Exhausted (σ.next).2 := by
  by_cases h0 : σ.window_size = 0
  · rw [next_zero σ h0]
    exact Or.inl h0
  · have hh : (refill σ.window_size σ.iter
        (if σ.window.length = σ.window_size then σ.window.tail
         else σ.window)).1 = none := by
      simpa [Windows.next, h0] using h
    have hr := refill_none σ.window_size σ.iter _ hh
    right
    constructor
    · simpa [Windows.next, h0] using hr.1
    · simpa [Windows.next, h0] using hr.2

/-- An exhausted state is a fixed point of the iteration. -/
theorem exhausted_iterate {T : Type} (σ : Windows T) (h : Exhausted σ) :
    ∀ k, nextState^[k] σ = σ := by
  intro k
  induction k with
  | zero => rfl
  | succ k ih =>
      rw [Function.iterate_succ_apply, show nextState σ = σ from
        congrArg Prod.snd (exhausted_next σ h)]
      exact ih

/-- The window size is unchanged by any number of pulls. -/
theorem iterate_window_size {T : Type} :
    ∀ (k : Nat) (σ : Windows T),
      (nextState^[k] σ).window_size = σ.window_size := by
  intro k
  induction k with
  | zero => intro σ; rfl
  | succ k ih =>
      intro σ
      rw [Function.iterate_succ_apply, ih (nextState σ)]
      exact next_window_size σ

/-- One pull preserves the buffer bound `window.length ≤ window_size`. -/
theorem inv_step {T : Type} (σ : Windows T)
    (h : σ.window.length ≤ σ.window_size) :
    (nextState σ).window.length ≤ (nextState σ).window_size := by
  by_cases h0 : σ.window_size = 0
  · simpa [nextState, next_zero σ h0] using h
  · simp only [nextState, Windows.next, if_neg h0]
    refine refill_len_le σ.window_size σ.iter _ ?_
    by_cases hf : σ.window.length = σ.window_size
    · simp only [if_pos hf, List.length_tail]
      omega
    · simpa [hf] using h

/-- Any number of pulls preserves the buffer bound. -/
theorem iterate_inv {T : Type} :
    ∀ (k : Nat) (σ : Windows T), σ.window.length ≤ σ.window_size →
      (nextState^[k] σ).window.length ≤ (nextState^[k] σ).window_size := by
  intro k
  induction k with
  | zero => intro σ h; exact h
  | succ k ih =>
      intro σ h
      rw [Function.iterate_succ_apply]
      exact ih (nextState σ) (inv_step σ h)

/-- A window emitted by `next` from a state satisfying the buffer bound
has length exactly `window_size`. -/
theorem next_some_len {T : Type} (σ : Windows T) (W : List T)
    (hinv : σ.window.length ≤ σ.window_size)
    (h : (σ.next).1 = some W) : W.length = σ.window_size := by
  by_cases h0 : σ.window_size = 0
  · rw [next_zero σ h0] at h
    simp at h
  · have hh : (refill σ.window_size σ.iter
        (if σ.window.length = σ.window_size then σ.window.tail
         else σ.window)).1 = some W := by
      simpa [Windows.next, h0] using h
    refine refill_some_len σ.window_size σ.iter _ W ?_ hh
    by_cases hf : σ.window.length = σ.window_size
    · simp only [if_pos hf, List.length_tail]
      omega
    · simpa [hf] using hinv

/-- Reading the `j`-th element (with default `[]`) of a map over `range`. -/
theorem getD_range_map {T : Type} (f : Nat → List T) (m j : Nat) (hj : j < m) :
    (((List.range m).map f).getD j []) = f j := by
  rw [List.getD_eq_getElem?_getD, List.getElem?_map, List.getElem?_range hj]
  rfl

/-! ## The claims -/

/-- C1: for every source `S` and every `window_size` with
`0 < window_size ≤ S.length`, iterating the adapter to exhaustion produces
exactly `S.length - window_size + 1` windows. -/
theorem C1_window_count {T : Type} (S : List T) (n : Nat)
    (h1 : 0 < n) (h2 : n ≤ S.length) :
    (allWindows S n).length = S.length - n + 1 := by
  rw [allWindows_eq S n h1]
  simp only [List.length_map, List.length_range]
  omega

theorem C1_window_count_witness :
    0 < 3 ∧ 3 ≤ ([1, 2, 3, 4, 5, 6] : List Nat).length ∧
      (allWindows ([1, 2, 3, 4, 5, 6] : List Nat) 3).length = 6 - 3 + 1 :=
  ⟨by decide, by decide,
    C1_window_count ([1, 2, 3, 4, 5, 6] : List Nat) 3 (by decide) (by decide)⟩

/-- C2: for consecutive produced windows, dropping the first element of the
earlier one equals dropping the last element of the later one (overlap of
`window_size - 1`, shift by one). -/
theorem C2_overlap_shift {T : Type} (S : List T) (n i : Nat)
    (hn : 0 < n) (hi : i + 1 < (allWindows S n).length) :
    ((allWindows S n).getD i []).tail =
      ((allWindows S n).getD (i + 1) []).dropLast := by
  have hm : i + 1 < S.length + 1 - n := by
    rwa [allWindows_eq S n hn, List.length_map, List.length_range] at hi
  rw [allWindows_eq S n hn, getD_range_map _ _ _ (by omega),
    getD_range_map _ _ _ hm]
  have hlen : ((S.drop (i + 1)).take n).length = n := by simp; omega
  rw [List.dropLast_eq_take, hlen, ← List.drop_one, List.drop_take,
    List.drop_drop, List.take_take]
  have hmin : min (n - 1) n = n - 1 := by omega
  rw [hmin]

theorem C2_overlap_shift_witness :
    0 < 2 ∧ 0 + 1 < (allWindows ([1, 2, 3, 4] : List Nat) 2).length ∧
      ((allWindows ([1, 2, 3, 4] : List Nat) 2).getD 0 []).tail =
        ((allWindows ([1, 2, 3, 4] : List Nat) 2).getD (0 + 1) []).dropLast :=
  ⟨by decide, by decide,
    C2_overlap_shift ([1, 2, 3, 4] : List Nat) 2 0 (by decide) (by decide)⟩

/-- C3: once a pull on the adapter returns `None`, every subsequent pull
on the same adapter also returns `None` (the list-modelled source trivially
keeps signalling exhaustion once empty). -/
theorem C3_sticky_exhaustion {T : Type} (σ : Windows T)
    (h : (σ.next).1 = none) (k : Nat) :
    ((nextState^[k] σ).next).1 = none := by
  cases k with
  | zero => exact h
  | succ k =>
      have hex : Exhausted (nextState σ) := next_none_exhausted σ h
      rw [Function.iterate_succ_apply, exhausted_iterate (nextState σ) hex k,
        exhausted_next (nextState σ) hex]

theorem C3_sticky_exhaustion_witness :
    (((⟨[], [1, 2], 2⟩ : Windows Nat)).next).1 = none ∧
      ((nextState^[3] (⟨[], [1, 2], 2⟩ : Windows Nat)).next).1 = none :=
  ⟨by decide, C3_sticky_exhaustion (⟨[], [1, 2], 2⟩ : Windows Nat) (by decide) 3⟩

/-- C4: for a positive window size, every window the adapter produces has
length exactly `window_size`. -/
theorem C4_window_length {T : Type} (S : List T) (n : Nat) (W : List T)
    (hn : 0 < n) (hW : W ∈ allWindows S n) : W.length = n := by
  rw [allWindows_eq S n hn] at hW
  simp only [List.mem_map, List.mem_range] at hW
  obtain ⟨i, hi, rfl⟩ := hW
  simp only [List.length_take, List.length_drop]
  omega

theorem C4_window_length_witness :
    0 < 2 ∧ [1, 2] ∈ allWindows ([1, 2, 3] : List Nat) 2 ∧
      ([1, 2] : List Nat).length = 2 :=
  ⟨by decide, by decide,
    C4_window_length ([1, 2, 3] : List Nat) 2 [1, 2] (by decide) (by decide)⟩

/-- C5: when `window_size` exceeds the source length, the very first pull
returns `None` and the adapter produces zero windows. -/
theorem C5_oversize_empty {T : Type} (S : List T) (n : Nat)
    (h : S.length < n) :
    ((windows S n).next).1 = none ∧ allWindows S n = [] := by
  have hn : 0 < n := by omega
  constructor
  · have hfail := next_partial_fail S [] n (by simpa using hn) (by simp; omega)
    show ((Windows.next ⟨S, [], n⟩).1 = none)
    rw [hfail]
  · rw [allWindows_eq S n hn]
    have h0 : S.length + 1 - n = 0 := by omega
    simp [h0]

theorem C5_oversize_empty_witness :
    ([2, 3, 5, 7] : List Nat).length < 10 ∧
      ((windows ([2, 3, 5, 7] : List Nat) 10).next).1 = none ∧
      allWindows ([2, 3, 5, 7] : List Nat) 10 = [] := by
  refine ⟨by decide, ?_⟩
  exact C5_oversize_empty ([2, 3, 5, 7] : List Nat) 10 (by decide)

/-- C6: with `window_size = 0` the adapter produces zero windows and every
pull, not only the first, returns `None`. -/
theorem C6_zero_size {T : Type} (S : List T) (k : Nat) :
    allWindows S 0 = [] ∧ ((nextState^[k] (windows S 0)).next).1 = none := by
  have hex : Exhausted (windows S 0) := Or.inl rfl
  constructor
  · show collect (S.length + 1) (windows S 0) = []
    simp [collect, exhausted_next _ hex]
  · rw [exhausted_iterate _ hex k, exhausted_next _ hex]

/-- C7: whenever a pull from a reachable state returns `None`, the refill
was abandoned with the source fully drained (its pulled elements stay
consumed and no later window is ever emitted), and a window is only ever
emitted completely filled to `window_size`. -/
theorem C7_abandoned_refill {T : Type} (S : List T) (n k j : Nat)
    (W : List T) (hn : 0 < n) :
    (((nextState^[k] (windows S n)).next).1 = some W → W.length = n) ∧
    (((nextState^[k] (windows S n)).next).1 = none →
      ((nextState^[k] (windows S n)).next).2.iter = [] ∧
      ((nextState^[j] (((nextState^[k] (windows S n)).next).2)).next).1 =
        none) := by
  set σ := nextState^[k] (windows S n) with hσ
  have hsize : σ.window_size = n := iterate_window_size k (windows S n)
  have hinv : σ.window.length ≤ σ.window_size :=
    iterate_inv k (windows S n) (by simp [windows, Windows.new])
  constructor
  · intro hsome
    rw [← hsize]
    exact next_some_len σ W hinv hsome
  · intro hnone
    have hex : Exhausted (σ.next).2 := next_none_exhausted σ hnone
    refine ⟨?_, ?_⟩
    · obtain h0 | ⟨hi, _⟩ := hex
      · rw [next_window_size σ, hsize] at h0
        omega
      · exact hi
    · rw [exhausted_iterate _ hex j, exhausted_next _ hex]

theorem C7_abandoned_refill_witness :
    0 < 2 ∧
      ((((nextState^[2] (windows ([1, 2, 3] : List Nat) 2)).next).1 =
            some [9, 9] → ([9, 9] : List Nat).length = 2) ∧
        (((nextState^[2] (windows ([1, 2, 3] : List Nat) 2)).next).1 = none →
          ((nextState^[2] (windows ([1, 2, 3] : List Nat) 2)).next).2.iter =
              [] ∧
          ((nextState^[1]
                (((nextState^[2] (windows ([1, 2, 3] : List Nat) 2)).next).2)).next).1 =
            none)) :=
  ⟨by decide,
    C7_abandoned_refill ([1, 2, 3] : List Nat) 2 2 1 [9, 9] (by decide)⟩

/-- C8: from construction, after any number of pulls, the window buffer
holds at most `window_size` elements. -/
theorem C8_buffer_bound {T : Type} (S : List T) (n k : Nat) :
    (nextState^[k] (Windows.new S n)).window.length ≤ n := by
  have h := iterate_inv k (Windows.new S n) (by simp [Windows.new])
  rwa [iterate_window_size k (Windows.new S n)] at h

/-- C10: construction is lazy — `windows` stores the source unchanged
(no element is consumed) and starts with an empty buffer. -/
theorem C10_lazy_construction {T : Type} (S : List T) (n : Nat) :
    (windows S n).iter = S ∧ (windows S n).window = [] :=
  ⟨rfl, rfl⟩

end WindowedIterator
